import Mathlib

/-!
Verification development for the `oc-wrapped` statistics engine.

The definitions below are a shallow embedding of the TypeScript sources:

* `src/stats.ts` — `calculateStats`, `calculateStreaks`, `findMostActiveDay`,
  `formatModelName`, `formatProviderName`, `formatDateKey`;
* `src/collector.ts` — `collectSessions`, `collectMessages`, `collectProjects`;
* `src/types.ts` — the record shapes;
* `src/utils/dates.ts` — `ModelCost` (the `PriceEntry` shape) and `getModelPricing`.

Modelling conventions, fixed once for the whole file:

* Timestamps are epoch milliseconds as `Int`; a calendar day key
  `YYYY-MM-DD` (produced by `formatDateKey` in local time) is modelled as the
  epoch day number `ms.fdiv 86400000`, i.e. the embedding fixes local time to
  UTC.  `Date.prototype.getFullYear` becomes `civilYear` below (the standard
  civil-from-days computation).  The string filter
  `date.startsWith(String(year))` of `calculateStreaks` is modelled as
  equality of the key's calendar year with the requested year, which agrees
  with the string prefix test for four-digit years.
* The day difference `Math.round((currDate - prevDate) / 86400000)` computed
  on two `YYYY-MM-DD` keys parsed as UTC dates is exact, so it is modelled as
  `Int` subtraction of the two day numbers.
* A JavaScript `Map` is modelled as an association list in insertion order
  (`bump` mirrors `map.set(k, (map.get(k) || 0) + 1)`), and a `Set` built
  from distinct pushes as a list.
* JavaScript truthiness tests on optional fields (`message.cost`,
  `message.modelID`, the `year` parameter) are modelled explicitly: `0`,
  the empty string, and `undefined` are falsy.
* `Array.prototype.sort` is stable; `sortAsc` (default lexicographic sort of
  day keys, which is chronological within an era) and `sortDescBy`
  (comparator `(a, b) => b[1] - a[1]`) are stable insertion sorts.
* Monetary amounts are rationals.
* Record fields that the statistics engine never reads (ids, titles, paths,
  version-control metadata, ...) are omitted from the record structures.
-/

namespace OCWrapped

/-- Calendar year of an epoch day number (the year `formatDateKey` would
print), via the standard civil-from-days algorithm. -/
def civilYear (z : Int) : Int :=
  let z2 := z + 719468
  let era := Int.fdiv z2 146097
  let doe := z2 - era * 146097
  let yoe := Int.fdiv (doe - Int.fdiv doe 1460 + Int.fdiv doe 36524 - Int.fdiv doe 146096) 365
  let y := yoe + era * 400
  let doy := doe - (365 * yoe + Int.fdiv yoe 4 - Int.fdiv yoe 100)
  let mp := Int.fdiv (5 * doy + 2) 153
  let m := if mp < 10 then mp + 3 else mp - 9
  if m ≤ 2 then y + 1 else y

/-- Epoch day number of an epoch-milliseconds timestamp. -/
def msToDay (ms : Int) : Int := Int.fdiv ms 86400000

/-- Token breakdown of a message (`MessageData.tokens` in `types.ts`).  The
TypeScript interface declares the fields as `number`, but `calculateStats`
defends against absent sub-fields with `|| 0`, so they are modelled as
optional. -/
structure TokensData where
  input : Option Nat
  output : Option Nat
  reasoning : Option Nat
  cacheRead : Option Nat
  cacheWrite : Option Nat
  deriving Repr, DecidableEq

/-- Message role (`"user" | "assistant"`). -/
inductive Role where
  | user
  | assistant
  deriving Repr, DecidableEq

/-- `MessageData` of `types.ts`, restricted to the fields the engine reads. -/
structure MessageData where
  role : Role
  created : Int
  modelID : Option String
  providerID : Option String
  cost : Option Rat
  tokens : Option TokensData
  deriving Repr, DecidableEq

/-- `SessionData` of `types.ts`, restricted to the fields the engine reads. -/
structure SessionData where
  created : Int
  updated : Int
  deriving Repr, DecidableEq

/-- `ProjectData` of `types.ts`; the engine only counts projects. -/
structure ProjectData where
  worktree : String
  deriving Repr, DecidableEq

/-- `ModelCost` of `utils/dates.ts` (the `PriceEntry` of the spec):
cost-per-million-token rates, the cache rates optional. -/
structure ModelCost where
  input : Rat
  output : Rat
  cacheRead : Option Rat
  cacheWrite : Option Rat
  deriving Repr, DecidableEq

/-- Day of a message's creation timestamp. -/
def dayOf (m : MessageData) : Int := msToDay m.created

/-- Truthiness of an optional numeric cost (`message.cost &&`): absent and
zero are falsy. -/
def costTruthy : Option Rat → Bool
  | some c => c != 0
  | none => false

/-- Truthiness of an optional string (`message.modelID &&`): absent and empty
are falsy. -/
def strTruthy : Option String → Bool
  | some s => s != ""
  | none => false

/-- Token accumulation loop of `calculateStats` (lines 35-43 of `stats.ts`):
one pass summing `tokens.input || 0` and `tokens.output || 0` for messages
carrying a breakdown.  Returns `(totalInputTokens, totalOutputTokens)`. -/
def tokenTotals (msgs : List MessageData) : Nat × Nat :=
  msgs.foldl
    (fun acc m =>
      match m.tokens with
      | some t => (acc.1 + t.input.getD 0, acc.2 + t.output.getD 0)
      | none => acc)
    (0, 0)

/-- Line 45 of `stats.ts`: `const totalTokens = totalOutputTokens;`. -/
def totalTokens (msgs : List MessageData) : Nat := (tokenTotals msgs).2

/-- Cost accumulation loop of `calculateStats` (lines 48-56 of `stats.ts`):
sums `message.cost` over messages with `providerID === "opencode"` and a
truthy cost, also recording `hasZenUsage`. -/
def zenCost (msgs : List MessageData) : Rat × Bool :=
  msgs.foldl
    (fun acc m =>
      if m.providerID = some "opencode" ∧ costTruthy m.cost then
        (acc.1 + m.cost.getD 0, true)
      else acc)
    (0, false)

/-- One `map.set(k, (map.get(k) || 0) + 1)` on an insertion-ordered
association list. -/
def bump {α : Type} [DecidableEq α] : List (α × Nat) → α → List (α × Nat)
  | [], k => [(k, 1)]
  | (k0, c) :: rest, k =>
      if k0 = k then (k0, c + 1) :: rest else (k0, c) :: bump rest k

/-- Model-usage counting loop of `calculateStats` (lines 59-65): assistant
messages with a truthy `modelID`. -/
def modelCounts (msgs : List MessageData) : List (String × Nat) :=
  msgs.foldl
    (fun acc m =>
      if strTruthy m.modelID ∧ m.role = Role.assistant then
        bump acc (m.modelID.getD "")
      else acc)
    []

/-- Provider-usage counting loop of `calculateStats` (lines 78-84): assistant
messages with a truthy `providerID`. -/
def providerCounts (msgs : List MessageData) : List (String × Nat) :=
  msgs.foldl
    (fun acc m =>
      if strTruthy m.providerID ∧ m.role = Role.assistant then
        bump acc (m.providerID.getD "")
      else acc)
    []

/-- Stable insertion of one element into a list sorted non-increasingly by
`key`; the element lands after every existing element of equal key, matching
the stable JavaScript `sort((a, b) => b[1] - a[1])`. -/
def insertDescBy {α : Type} (key : α → Nat) (x : α) : List α → List α
  | [] => [x]
  | y :: ys => if key y < key x then x :: y :: ys else y :: insertDescBy key x ys

/-- Stable non-increasing sort by `key`. -/
def sortDescBy {α : Type} (key : α → Nat) (l : List α) : List α :=
  l.foldl (fun acc x => insertDescBy key x acc) []

/-- Name table of `formatModelName` in `stats.ts`. -/
def modelNameMap : List (String × String) :=
  [("claude-opus-4.5", "Claude Opus 4.5"),
   ("claude-sonnet-4.5", "Claude Sonnet 4.5"),
   ("claude-sonnet-4", "Claude Sonnet 4"),
   ("claude-haiku-4.5", "Claude Haiku 4.5"),
   ("claude-haiku-4-5", "Claude Haiku 4.5"),
   ("claude-sonnet-4-5", "Claude Sonnet 4.5"),
   ("claude-opus-4-5-thinking", "Claude Opus 4.5 Thinking"),
   ("claude-opus-4-1", "Claude Opus 4.1"),
   ("gpt-5", "GPT-5"),
   ("gpt-5-codex", "GPT-5 Codex"),
   ("gpt-5.1", "GPT-5.1"),
   ("gpt-5.1-codex", "GPT-5.1 Codex"),
   ("grok-code", "Grok Code"),
   ("grok-code-fast-1", "Grok Code Fast"),
   ("kimi-k2", "Kimi K2"),
   ("big-pickle", "Big Pickle"),
   ("glm-4.6", "GLM 4.6"),
   ("code-supernova", "Code Supernova"),
   ("gemini-2.5-pro", "Gemini 2.5 Pro"),
   ("gemini-3-pro-preview", "Gemini 3 Pro")]

/-- `formatModelName`: `nameMap[name] || name`. -/
def formatModelName (name : String) : String :=
  (modelNameMap.lookup name).getD name

/-- Name table of `formatProviderName` in `stats.ts`. -/
def providerNameMap : List (String × String) :=
  [("github-copilot", "GitHub Copilot"),
   ("opencode", "OpenCode Zen"),
   ("google", "Google AI"),
   ("anthropic", "Anthropic"),
   ("openai", "OpenAI")]

/-- `formatProviderName`: `nameMap[name] || name`. -/
def formatProviderName (name : String) : String :=
  (providerNameMap.lookup name).getD name

/-- `Math.round` on a rational. -/
def jsRound (q : Rat) : Int := Int.floor (q + 1 / 2)

/-- `ModelStats` of `types.ts` as produced by `calculateStats`. -/
structure ModelStatsM where
  name : String
  count : Nat
  percentage : Int
  deriving Repr, DecidableEq

/-- `ProviderStats` of `types.ts` as produced by `calculateStats`. -/
structure ProviderStatsM where
  name : String
  count : Nat
  percentage : Int
  deriving Repr, DecidableEq

/-- `topModels` of `stats.ts` (lines 67-75): sort the model counts
non-increasingly, map to display entries, then `slice(0, 3)`. -/
def topModels (msgs : List MessageData) : List ModelStatsM :=
  let counts := modelCounts msgs
  let total : Nat := (counts.map (fun p => p.2)).foldl (· + ·) 0
  (((sortDescBy (fun p => p.2) counts).map
      (fun p =>
        { name := formatModelName p.1
          count := p.2
          percentage := jsRound ((p.2 : Rat) / (total : Rat) * 100) })).take 3)

/-- `topProviders` of `stats.ts` (lines 86-94): sort the provider counts
non-increasingly, `slice(0, 10)`, then map to display entries. -/
def topProviders (msgs : List MessageData) : List ProviderStatsM :=
  let counts := providerCounts msgs
  let total : Nat := (counts.map (fun p => p.2)).foldl (· + ·) 0
  (((sortDescBy (fun p => p.2) counts).take 10).map
    (fun p =>
      { name := formatProviderName p.1
        count := p.2
        percentage := jsRound ((p.2 : Rat) / (total : Rat) * 100) }))

/-- Daily-activity loop of `calculateStats` (lines 97-103): a day-key →
message-count map in insertion order. -/
def dailyActivity (msgs : List MessageData) : List (Int × Nat) :=
  msgs.foldl (fun acc m => bump acc (dayOf m)) []

/-- Loop state of the max-streak scan in `calculateStreaks`
(`maxStreak`, `tempStreak`, `tempStreakStart`, `maxStreakStart`,
`maxStreakEnd`). -/
structure LoopSt where
  maxStreak : Nat
  tempStreak : Nat
  tempStreakStart : Nat
  maxStreakStart : Nat
  maxStreakEnd : Nat
  deriving Repr, DecidableEq

/-- The `for (let i = 1; ...)` scan of `calculateStreaks` (lines 197-216 of
`stats.ts`), one step per remaining date; `prev` is `activeDates[i - 1]`. -/
def streakGo (prev : Int) (i : Nat) (s : LoopSt) : List Int → LoopSt
  | [] => s
  | d :: rest =>
      let s2 :=
        if d - prev = 1 then
          let t := s.tempStreak + 1
          if s.maxStreak < t then
            { maxStreak := t
              tempStreak := t
              tempStreakStart := s.tempStreakStart
              maxStreakStart := s.tempStreakStart
              maxStreakEnd := i }
          else { s with tempStreak := t }
        else { s with tempStreak := 1, tempStreakStart := i }
      streakGo d (i + 1) s2 rest

/-- The scan started from the initial state
`maxStreak = tempStreak = 1`, all indices `0` (lines 190-195). -/
def streakScan : List Int → LoopSt
  | [] => { maxStreak := 0, tempStreak := 0, tempStreakStart := 0, maxStreakStart := 0, maxStreakEnd := 0 }
  | d :: rest =>
      streakGo d 1
        { maxStreak := 1, tempStreak := 1, tempStreakStart := 0, maxStreakStart := 0, maxStreakEnd := 0 }
        rest

/-- The backwards membership walk of the current-streak computation
(`while (true) { checkDate -= 1 day; if (has) streak++very else break }`).
The JavaScript loop is unbounded; here it carries enough fuel, and the
current-streak theorem shows `keys.length + 1` steps never run out on a
duplicate-free key set. -/
def countRun (keys : List Int) : Nat → Int → Nat
  | 0, _ => 0
  | Nat.succ fuel, d => if d ∈ keys then countRun keys fuel (d - 1) + 1 else 0

/-- Current-streak computation of `calculateStreaks` (lines 224-258):
anchored at today when today is an active key, else at yesterday, else `0`;
from the anchor it walks backwards over the unfiltered daily-activity keys. -/
def currentStreakCalc (keys : List Int) (today : Int) : Nat :=
  if today ∈ keys then 1 + countRun keys (keys.length + 1) (today - 1)
  else if (today - 1) ∈ keys then 1 + countRun keys (keys.length + 1) (today - 2)
  else 0

/-- Stable insertion into an ascending list. -/
def insertAsc (x : Int) : List Int → List Int
  | [] => [x]
  | y :: ys => if x ≤ y then x :: y :: ys else y :: insertAsc x ys

/-- Ascending sort, modelling `Array.prototype.sort()` on day keys. -/
def sortAsc (l : List Int) : List Int := l.foldr insertAsc []

/-- The `activeDates` of `calculateStreaks` (lines 182-184): day keys filtered
to the requested year, sorted ascending. -/
def activeDatesOf (keys : List Int) (year : Int) : List Int :=
  sortAsc (keys.filter (fun d => decide (civilYear d = year)))

/-- Result record of `calculateStreaks`; the JavaScript `Set` of max-streak
days is modelled as the list of pushed keys. -/
structure StreakResult where
  maxStreak : Nat
  currentStreak : Nat
  maxStreakDays : List Int
  deriving Repr, DecidableEq

/-- `calculateStreaks` of `stats.ts` (lines 180-261).  `keys` is the
insertion-ordered key list of the daily-activity map, and `today` the epoch
day of the wall clock read by the function. -/
def calculateStreaks (keys : List Int) (year : Int) (today : Int) : StreakResult :=
  let activeDates := activeDatesOf keys year
  if activeDates.isEmpty then
    { maxStreak := 0, currentStreak := 0, maxStreakDays := [] }
  else
    let s := streakScan activeDates
    { maxStreak := s.maxStreak
      currentStreak := currentStreakCalc keys today
      maxStreakDays := (activeDates.take (s.maxStreakEnd + 1)).drop s.maxStreakStart }

/-- `findMostActiveDay` of `stats.ts` (lines 263-293); the sentinel
`maxDate = ""` is modelled as `none`. -/
def findMostActiveDay (da : List (Int × Nat)) : Option (Int × Nat) :=
  if da.isEmpty then none
  else
    let r := da.foldl
      (fun best p => if best.2 < p.2 then (some p.1, p.2) else best)
      ((none : Option Int), 0)
    match r.1 with
    | none => none
    | some d => some (d, r.2)

/-- First-session computation of `calculateStats` (lines 17-27): the guarded
`Math.min` over all sessions ever, returning
`(firstSessionDate, daysSinceFirstSession)`; the date is modelled by its
timestamp. -/
def firstSessionInfo (allSessions : List SessionData) (nowMs : Int) : Int × Int :=
  match allSessions with
  | [] => (nowMs, 0)
  | s0 :: rest =>
      let firstTs := rest.foldl (fun acc s => min acc s.created) s0.created
      (firstTs, Int.fdiv (nowMs - firstTs) 86400000)

/-- `OpenCodeStats` as actually returned by `calculateStats` in `stats.ts`
(the return object of lines 111-130). -/
structure OpenCodeStatsM where
  year : Int
  firstSessionDate : Int
  daysSinceFirstSession : Int
  totalSessions : Nat
  totalMessages : Nat
  totalProjects : Nat
  totalInputTokens : Nat
  totalOutputTokens : Nat
  totalTokens : Nat
  totalCost : Rat
  hasZenUsage : Bool
  topModels : List ModelStatsM
  topProviders : List ProviderStatsM
  maxStreak : Nat
  currentStreak : Nat
  maxStreakDays : List Int
  dailyActivity : List (Int × Nat)
  mostActiveDay : Option (Int × Nat)
  deriving Repr, DecidableEq

/-- `calculateStats` of `stats.ts` composed with the collector year filters:
`sessions = collectSessions(year)` and `messages = collectMessages(year)`
filter by the calendar year of the creation date, `allSessions` is the
unfiltered history, and `nowMs` is the wall clock (`Date.now()`).  The CLI
always passes a non-zero four-digit year, so the collectors' truthy `year`
filter is active. -/
def calculateStats (year : Int) (nowMs : Int) (allSessions : List SessionData)
    (allMessages : List MessageData) (projects : List ProjectData) : OpenCodeStatsM :=
  let sessions := allSessions.filter (fun s => decide (civilYear (msToDay s.created) = year))
  let messages := allMessages.filter (fun m => decide (civilYear (dayOf m) = year))
  let fsi := firstSessionInfo allSessions nowMs
  let tt := tokenTotals messages
  let zc := zenCost messages
  let da := dailyActivity messages
  let sr := calculateStreaks (da.map (fun p => p.1)) year (msToDay nowMs)
  { year := year
    firstSessionDate := fsi.1
    daysSinceFirstSession := fsi.2
    totalSessions := sessions.length
    totalMessages := messages.length
    totalProjects := projects.length
    totalInputTokens := tt.1
    totalOutputTokens := tt.2
    totalTokens := tt.2
    totalCost := zc.1
    hasZenUsage := zc.2
    topModels := topModels messages
    topProviders := topProviders messages
    maxStreak := sr.maxStreak
    currentStreak := sr.currentStreak
    maxStreakDays := sr.maxStreakDays
    dailyActivity := da
    mostActiveDay := findMostActiveDay da }

/-! ### Collector model (`collector.ts`)

The filesystem visible to the three collectors: `none` for a directory means
`readdir` rejects (missing or unreadable), `none` for a file's content means
the JSON parse throws.  `rootExists` models `checkOpenCodeDataExists`. -/

/-- A leaf JSON file: its name and its parse result. -/
structure FileEntry (α : Type) where
  name : String
  content : Option α
  deriving Repr, DecidableEq

/-- A per-project (or per-session) subdirectory: its name and, when readable,
its files. -/
structure DirEntry (α : Type) where
  name : String
  files : Option (List (FileEntry α))
  deriving Repr, DecidableEq

/-- The corpus tree under the storage root. -/
structure CorpusFS where
  rootExists : Bool
  sessionDir : Option (List (DirEntry SessionData))
  messageDir : Option (List (DirEntry MessageData))
  projectDir : Option (List (FileEntry ProjectData))

/-- Truthiness of the optional `year` parameter of the collectors
(`if (year)`): absent and `0` disable the filter. -/
def yearTruthy : Option Int → Bool
  | some y => y != 0
  | none => false

/-- The collector's per-record year test (`if (year) { ... continue }`). -/
def keepForYear (year : Option Int) (created : Int) : Bool :=
  if yearTruthy year then decide (civilYear (msToDay created) = year.getD 0) else true

/-- Inner file loop of `collectSessions` / `collectMessages`: keep `.json`
files that parse and pass the year filter. -/
def filesRecords {α : Type} (created : α → Int) (year : Option Int)
    (files : List (FileEntry α)) : List α :=
  files.flatMap
    (fun f =>
      if f.name.endsWith ".json" then
        match f.content with
        | some a => if keepForYear year (created a) then [a] else []
        | none => []
      else [])

/-- One subdirectory's contribution: an unreadable subdirectory is skipped
(`catch { /* Skip inaccessible directories */ }`). -/
def dirRecords {α : Type} (created : α → Int) (year : Option Int)
    (dir : DirEntry α) : List α :=
  match dir.files with
  | none => []
  | some files => filesRecords created year files

/-- `collectSessions` of `collector.ts` (lines 25-67): throws
`Failed to read sessions` when `readdir` on the `session` directory rejects,
otherwise collects over the per-project subdirectories. -/
def collectSessions (fs : CorpusFS) (year : Option Int) : Except String (List SessionData) :=
  match fs.sessionDir with
  | none => Except.error "Failed to read sessions"
  | some dirs => Except.ok (dirs.flatMap (dirRecords (fun s => s.created) year))

/-- `collectMessages` of `collector.ts` (lines 69-111), same shape as
`collectSessions` over the `message` directory. -/
def collectMessages (fs : CorpusFS) (year : Option Int) : Except String (List MessageData) :=
  match fs.messageDir with
  | none => Except.error "Failed to read messages"
  | some dirs => Except.ok (dirs.flatMap (dirRecords (fun m => m.created) year))

/-- `collectProjects` of `collector.ts` (lines 121-145): flat files, no year
filter, and the outer `catch` swallows even a failed `readdir` of the
`project` directory ("Projects directory might not exist"), so it never
propagates an error. -/
def collectProjects (fs : CorpusFS) : List ProjectData :=
  match fs.projectDir with
  | none => []
  | some files =>
      files.flatMap
        (fun f =>
          if f.name.endsWith ".json" then
            match f.content with
            | some a => [a]
            | none => []
          else [])

/-! ### Spec-modelled passes

Two fields of `OpenCodeStats` in `types.ts` — `estimatedCost` and
`weekdayActivity` — are declared there but no code under `src/` computes
them; `getModelPricing` in `utils/dates.ts` is likewise never called.  The
two passes are modelled from the spec below. -/

/-- Modelled from the spec: the per-message estimated-cost contribution that
is missing from the sources (only the `estimatedCost` declaration in
`types.ts` and `getModelPricing` in `utils/dates.ts` exist).  Spec §4.1: for
every message not from the first-party provider (`"opencode"`) that has both
a model identity and a token breakdown, look up a `PriceEntry` by model
identity; if found, the contribution is
`input_tokens × input_rate/1e6 + output_tokens × output_rate/1e6` plus the
cache read/write terms when those rates are present; models with no matching
entry contribute zero. -/
def messageEstimatedCost (pricing : String → Option ModelCost) (m : MessageData) : Rat :=
  if m.providerID = some "opencode" then 0
  else
    match m.modelID, m.tokens with
    | some mid, some t =>
        match pricing mid with
        | some pc =>
            (t.input.getD 0 : Rat) * pc.input / 1000000
              + (t.output.getD 0 : Rat) * pc.output / 1000000
              + (match pc.cacheRead with
                 | some r => (t.cacheRead.getD 0 : Rat) * r / 1000000
                 | none => 0)
              + (match pc.cacheWrite with
                 | some w => (t.cacheWrite.getD 0 : Rat) * w / 1000000
                 | none => 0)
        | none => 0
    | _, _ => 0

/-- Modelled from the spec: the estimated-cost total over a message stream
(spec §4.1, "Estimated cost (all other providers)"). -/
def estimatedCost (pricing : String → Option ModelCost) (msgs : List MessageData) : Rat :=
  msgs.foldl (fun acc m => acc + messageEstimatedCost pricing m) 0

/-- Local weekday of an epoch day, `0 = Sunday` through `6 = Saturday`
(epoch day 0 was a Thursday), matching the `WeekdayActivity` comment in
`types.ts`. -/
def weekdayOf (d : Int) : Nat := ((d + 4) % 7).toNat

/-- Modelled from the spec: the 7-slot weekday accumulator that is missing
from the sources (only the `WeekdayActivity` interface in `types.ts` exists).
Spec §4.1: a fixed 7-slot accumulator indexed by local weekday, incremented
once per message in the requested year regardless of which day-key it falls
on. -/
def weekdayCounts (year : Int) (msgs : List MessageData) : List Nat :=
  msgs.foldl
    (fun acc m =>
      if civilYear (dayOf m) = year then
        acc.set (weekdayOf (dayOf m)) (acc.getD (weekdayOf (dayOf m)) 0 + 1)
      else acc)
    (List.replicate 7 0)

/-- One step of the most-active-weekday selection: keep the running best
slot unless the candidate's count is strictly higher, so the lowest index
wins ties. -/
def argmaxStep (counts : List Nat) (best i : Nat) : Nat :=
  if counts.getD best 0 < counts.getD i 0 then i else best

/-- Modelled from the spec: the most active weekday is the slot with the
highest count, ties broken by lowest slot index. -/
def mostActiveWeekday (counts : List Nat) : Nat :=
  (List.range 7).foldl (argmaxStep counts) 0

end OCWrapped

namespace OCWrapped

/-! ### Streak-scan invariants

Observations about the sorted `activeDates` array: `LinkAt dates j` says the
entry after position `j` is the next calendar day, and `ConsecSeg dates a b`
says the segment of positions `a .. b` is a run of consecutive days. -/

/-- Positions `j` and `j + 1` hold consecutive calendar days. -/
def LinkAt (dates : List Int) (j : Nat) : Prop :=
  dates.getD (j + 1) 0 = dates.getD j 0 + 1

/-- Positions `a .. b` (inclusive) hold consecutive calendar days. -/
def ConsecSeg (dates : List Int) (a b : Nat) : Prop :=
  ∀ j, a ≤ j → j + 1 ≤ b → LinkAt dates j

theorem consecSeg_of_le {dates : List Int} {a b : Nat} (h : b ≤ a) :
    ConsecSeg dates a b := by
  intro j hj1 hj2
  exact absurd (Nat.lt_of_lt_of_le (Nat.lt_of_lt_of_le (Nat.lt_succ_self j) hj2) h)
    (Nat.not_lt.mpr hj1)

theorem consecSeg_mono {dates : List Int} {a b c : Nat} (h : c ≤ b)
    (hc : ConsecSeg dates a b) : ConsecSeg dates a c :=
  fun j hj1 hj2 => hc j hj1 (le_trans hj2 h)

theorem consecSeg_snoc {dates : List Int} {a i : Nat} (h1 : 1 ≤ i)
    (hc : ConsecSeg dates a (i - 1)) (hl : LinkAt dates (i - 1)) :
    ConsecSeg dates a i := by
  intro j hj1 hj2
  rcases Nat.lt_or_ge (j + 1) i with hlt | hge
  · exact hc j hj1 (by omega)
  · have hj : j = i - 1 := by omega
    rw [hj]
    exact hl

/-- Invariant carried by the `calculateStreaks` scan after processing
positions `0 .. i - 1` of `dates`. -/
structure ScanInv (dates : List Int) (i : Nat) (s : LoopSt) : Prop where
  tempPos : 1 ≤ s.tempStreak
  tempLen : s.tempStreakStart + s.tempStreak = i
  tempCon : ConsecSeg dates s.tempStreakStart (i - 1)
  maxPos : 1 ≤ s.maxStreak
  maxLen : s.maxStreakStart + s.maxStreak = s.maxStreakEnd + 1
  maxEndLt : s.maxStreakEnd + 1 ≤ i
  maxCon : ConsecSeg dates s.maxStreakStart s.maxStreakEnd
  tempLe : s.tempStreak ≤ s.maxStreak
  startLe : s.maxStreakStart ≤ s.tempStreakStart
  endInv : ∀ a, ConsecSeg dates a (i - 1) → i ≤ a + s.tempStreak
  maxInv : ∀ a b, b + 1 ≤ i → ConsecSeg dates a b → b + 1 ≤ a + s.maxStreak
  firstInv : ∀ a b, b + 1 ≤ i → ConsecSeg dates a b → b + 1 = a + s.maxStreak →
    s.maxStreakStart ≤ a

theorem scanInv_step (dates : List Int) (i : Nat) (s : LoopSt) (d prev : Int)
    (h1 : 1 ≤ i) (hi : i < dates.length)
    (hd : dates.getD i 0 = d) (hprev : prev = dates.getD (i - 1) 0)
    (inv : ScanInv dates i s) :
    ScanInv dates (i + 1)
      (if d - prev = 1 then
         if s.maxStreak < s.tempStreak + 1 then
           { maxStreak := s.tempStreak + 1
             tempStreak := s.tempStreak + 1
             tempStreakStart := s.tempStreakStart
             maxStreakStart := s.tempStreakStart
             maxStreakEnd := i }
         else { s with tempStreak := s.tempStreak + 1 }
       else { s with tempStreak := 1, tempStreakStart := i }) := by
  have hsub : i - 1 + 1 = i := by omega
  by_cases hdiff : d - prev = 1
  · have hlink : LinkAt dates (i - 1) := by
      unfold LinkAt
      rw [hsub, hd, ← hprev]
      omega
    rw [if_pos hdiff]
    have hconTo_i : ConsecSeg dates s.tempStreakStart i :=
      consecSeg_snoc h1 inv.tempCon hlink
    have hendNew : ∀ a, ConsecSeg dates a i → i + 1 ≤ a + (s.tempStreak + 1) := by
      intro a hca
      have := inv.endInv a (consecSeg_mono (by omega) hca)
      omega
    by_cases hmax : s.maxStreak < s.tempStreak + 1
    · rw [if_pos hmax]
      refine
        { tempPos := by simp
          tempLen := by have := inv.tempLen; simp; omega
          tempCon := by simpa using hconTo_i
          maxPos := by simp
          maxLen := by have := inv.tempLen; simp; omega
          maxEndLt := by simp
          maxCon := by simpa using hconTo_i
          tempLe := le_refl _
          startLe := le_refl _
          endInv := ?_
          maxInv := ?_
          firstInv := ?_ }
      · intro a hca
        simp only at hca ⊢
        have := hendNew a (by simpa using hca)
        omega
      · intro a b hb hcab
        simp only at hb ⊢
        by_cases hbi : b + 1 ≤ i
        · have := inv.maxInv a b hbi hcab
          omega
        · have hbeq : b = i := by omega
          subst hbeq
          have := hendNew a hcab
          omega
      · intro a b hb hcab heq
        simp only at hb heq ⊢
        by_cases hbi : b + 1 ≤ i
        · have := inv.maxInv a b hbi hcab
          have := inv.tempLe
          omega
        · have hbeq : b = i := by omega
          subst hbeq
          have h3 := inv.endInv a (consecSeg_mono (by omega) hcab)
          have h4 := inv.tempLen
          omega
    · rw [if_neg hmax]
      refine
        { tempPos := by simp
          tempLen := by have := inv.tempLen; simp; omega
          tempCon := by simpa using hconTo_i
          maxPos := inv.maxPos
          maxLen := inv.maxLen
          maxEndLt := by have := inv.maxEndLt; simp; omega
          maxCon := inv.maxCon
          tempLe := by simp; omega
          startLe := inv.startLe
          endInv := ?_
          maxInv := ?_
          firstInv := ?_ }
      · intro a hca
        simp only at hca ⊢
        have := hendNew a (by simpa using hca)
        omega
      · intro a b hb hcab
        simp only at hb ⊢
        by_cases hbi : b + 1 ≤ i
        · exact inv.maxInv a b hbi hcab
        · have hbeq : b = i := by omega
          subst hbeq
          have := hendNew a hcab
          omega
      · intro a b hb hcab heq
        simp only at hb heq ⊢
        by_cases hbi : b + 1 ≤ i
        · exact inv.firstInv a b hbi hcab heq
        · have hbeq : b = i := by omega
          subst hbeq
          have h3 := inv.endInv a (consecSeg_mono (by omega) hcab)
          have h4 := inv.tempLen
          have h5 := inv.startLe
          omega
  · rw [if_neg hdiff]
    have hnl : ¬ LinkAt dates (i - 1) := by
      unfold LinkAt
      rw [hsub, hd, ← hprev]
      intro hcontra
      exact hdiff (by omega)
    have hge : ∀ a, ConsecSeg dates a i → i ≤ a := by
      intro a hca
      by_contra hcon
      push_neg at hcon
      exact hnl (hca (i - 1) (by omega) (by omega))
    refine
      { tempPos := by simp
        tempLen := by simp
        tempCon := by simpa using consecSeg_of_le (le_refl i)
        maxPos := inv.maxPos
        maxLen := inv.maxLen
        maxEndLt := by have := inv.maxEndLt; simp; omega
        maxCon := inv.maxCon
        tempLe := by simpa using inv.maxPos
        startLe := by
          have h2 := inv.maxLen
          have h3 := inv.maxEndLt
          have h4 := inv.maxPos
          simp
          omega
        endInv := ?_
        maxInv := ?_
        firstInv := ?_ }
    · intro a hca
      simp only at hca ⊢
      have := hge a (by simpa using hca)
      omega
    · intro a b hb hcab
      simp only at hb ⊢
      by_cases hbi : b + 1 ≤ i
      · exact inv.maxInv a b hbi hcab
      · have hbeq : b = i := by omega
        subst hbeq
        have := hge a hcab
        have := inv.maxPos
        omega
    · intro a b hb hcab heq
      simp only at hb heq ⊢
      by_cases hbi : b + 1 ≤ i
      · exact inv.firstInv a b hbi hcab heq
      · have hbeq : b = i := by omega
        subst hbeq
        have h2 := hge a hcab
        have h3 := inv.maxPos
        have h4 := inv.maxLen
        have h5 := inv.maxEndLt
        omega

end OCWrapped

namespace OCWrapped

theorem streakGo_inv (dates : List Int) :
    ∀ (rest : List Int) (prev : Int) (i : Nat) (s : LoopSt),
      1 ≤ i → i ≤ dates.length → dates.drop i = rest →
      prev = dates.getD (i - 1) 0 → ScanInv dates i s →
      ScanInv dates (i + rest.length) (streakGo prev i s rest) := by
  intro rest
  induction rest with
  | nil =>
      intro prev i s h1 h2 hdrop hprev inv
      simpa [streakGo] using inv
  | cons d rest2 ih =>
      intro prev i s h1 h2 hdrop hprev inv
      have hi : i < dates.length := by
        by_contra hc
        push_neg at hc
        have hnil : dates.drop i = [] := List.drop_eq_nil_iff.mpr hc
        rw [hnil] at hdrop
        exact List.noConfusion hdrop
      have hcons := hdrop.symm.trans (List.drop_eq_getElem_cons hi)
      have hd : d = dates[i] := (List.cons.injEq _ _ _ _ ▸ hcons).1
      have hrest2 : rest2 = dates.drop (i + 1) := (List.cons.injEq _ _ _ _ ▸ hcons).2
      have hgd : dates.getD i 0 = d := by
        rw [List.getD_eq_getElem dates 0 hi]
        exact hd.symm
      have hstep := scanInv_step dates i s d prev h1 hi hgd hprev inv
      have hrec :=
        ih d (i + 1) _ (by omega) (by omega) hrest2.symm
          (by
            have : i + 1 - 1 = i := by omega
            rw [this, hgd])
          hstep
      have hlen : i + (d :: rest2).length = i + 1 + rest2.length := by
        simp [List.length_cons]
        omega
      rw [hlen]
      simpa [streakGo] using hrec

theorem streakScan_inv (dates : List Int) (h : dates ≠ []) :
    ScanInv dates dates.length (streakScan dates) := by
  match dates, h with
  | d :: rest, _ =>
    have base :
        ScanInv (d :: rest) 1
          { maxStreak := 1, tempStreak := 1, tempStreakStart := 0,
            maxStreakStart := 0, maxStreakEnd := 0 } :=
      { tempPos := le_refl 1
        tempLen := by simp
        tempCon := consecSeg_of_le (le_refl 0)
        maxPos := le_refl 1
        maxLen := by simp
        maxEndLt := le_refl 1
        maxCon := consecSeg_of_le (le_refl 0)
        tempLe := le_refl 1
        startLe := le_refl 0
        endInv := by intro a hca; show 1 ≤ a + 1; omega
        maxInv := by intro a b hb hcab; show b + 1 ≤ a + 1; omega
        firstInv := by intro a b hb hcab heq; exact Nat.zero_le a }
    have hres :=
      streakGo_inv (d :: rest) rest d 1
        { maxStreak := 1, tempStreak := 1, tempStreakStart := 0,
          maxStreakStart := 0, maxStreakEnd := 0 }
        (le_refl 1) (by simp) (by simp) (by simp) base
    have hlen : 1 + rest.length = (d :: rest).length := by
      simp [List.length_cons]
      omega
    rw [hlen] at hres
    simpa [streakScan] using hres

theorem consec_getD_add (dates : List Int) {a b : Nat} (hc : ConsecSeg dates a b) :
    ∀ k : Nat, a + k ≤ b → dates.getD (a + k) 0 = dates.getD a 0 + k := by
  intro k
  induction k with
  | zero => simp
  | succ k ihk =>
      intro hk
      have hlink : LinkAt dates (a + k) := hc (a + k) (by omega) (by omega)
      have h2 : a + (k + 1) = (a + k) + 1 := by omega
      rw [h2]
      unfold LinkAt at hlink
      rw [hlink, ihk (by omega)]
      push_cast
      ring

theorem slice_eq_range_map (dates : List Int) {st en : Nat}
    (hen : en < dates.length) (hc : ConsecSeg dates st en) :
    (dates.take (en + 1)).drop st
      = (List.range (en + 1 - st)).map (fun k : Nat => dates.getD st 0 + (k : Int)) := by
  apply List.ext_getElem
  · rw [List.length_drop, List.length_take, List.length_map, List.length_range]
    omega
  · intro n h1 h2
    rw [List.length_drop, List.length_take] at h1
    have hn : st + n ≤ en := by omega
    simp only [List.getElem_drop, List.getElem_take, List.getElem_map, List.getElem_range]
    have hval := consec_getD_add dates hc n hn
    rw [List.getD_eq_getElem dates 0 (by omega : st + n < dates.length)] at hval
    exact hval

theorem calculateStreaks_of_ne (keys : List Int) (year today : Int)
    (h : activeDatesOf keys year ≠ []) :
    calculateStreaks keys year today =
      { maxStreak := (streakScan (activeDatesOf keys year)).maxStreak
        currentStreak := currentStreakCalc keys today
        maxStreakDays :=
          ((activeDatesOf keys year).take
              ((streakScan (activeDatesOf keys year)).maxStreakEnd + 1)).drop
            (streakScan (activeDatesOf keys year)).maxStreakStart } := by
  unfold calculateStreaks
  rw [if_neg]
  simp [List.isEmpty_iff, h]

end OCWrapped

namespace OCWrapped

/-- C2: whenever the requested year has at least one active day-key, the
result of `calculateStreaks` satisfies `1 ≤ maxStreak`, `maxStreakDays` has
cardinality exactly `maxStreak` (stated as: the list is duplicate-free with
length `maxStreak`), and its members are a contiguous run of consecutive
calendar days; with zero active days in the year the result is
`maxStreak = 0`, `currentStreak = 0` and empty `maxStreakDays`; with exactly
one active day, `maxStreak = 1`. -/
theorem calculateStreaks_invariants (keys : List Int) (year today : Int) :
    (activeDatesOf keys year ≠ [] →
      1 ≤ (calculateStreaks keys year today).maxStreak ∧
      (calculateStreaks keys year today).maxStreakDays.length
          = (calculateStreaks keys year today).maxStreak ∧
      (calculateStreaks keys year today).maxStreakDays.Nodup ∧
      ∃ a : Int, (calculateStreaks keys year today).maxStreakDays
          = (List.range (calculateStreaks keys year today).maxStreak).map
              (fun k : Nat => a + (k : Int))) ∧
    (activeDatesOf keys year = [] →
      calculateStreaks keys year today
        = { maxStreak := 0, currentStreak := 0, maxStreakDays := [] }) ∧
    ((activeDatesOf keys year).length = 1 →
      (calculateStreaks keys year today).maxStreak = 1) := by
  refine ⟨?_, ?_, ?_⟩
  · intro h
    rw [calculateStreaks_of_ne keys year today h]
    set D := activeDatesOf keys year with hD
    obtain inv := streakScan_inv D h
    set s := streakScan D with hs
    dsimp only
    have hml := inv.maxLen
    have hme := inv.maxEndLt
    have hmp := inv.maxPos
    have hen : s.maxStreakEnd < D.length := by omega
    have hsl := slice_eq_range_map D hen inv.maxCon
    refine ⟨hmp, ?_, ?_, ?_⟩
    · rw [hsl, List.length_map, List.length_range]
      omega
    · rw [hsl]
      refine List.Nodup.map ?_ (List.nodup_range _)
      intro x y hxy
      simp only at hxy
      omega
    · refine ⟨D.getD s.maxStreakStart 0, ?_⟩
      have harg : s.maxStreakEnd + 1 - s.maxStreakStart = s.maxStreak := by omega
      rw [hsl, harg]
  · intro h
    simp [calculateStreaks, h]
  · intro h
    obtain ⟨a, ha⟩ := List.length_eq_one.mp h
    have hne : activeDatesOf keys year ≠ [] := by
      rw [ha]
      simp
    rw [calculateStreaks_of_ne keys year today hne]
    dsimp only
    rw [ha]
    rfl

/-- C2 witness: a concrete two-day input in 2025. -/
theorem calculateStreaks_invariants_witness :
    activeDatesOf [20089, 20090] 2025 ≠ [] ∧
    (1 ≤ (calculateStreaks [20089, 20090] 2025 0).maxStreak ∧
      (calculateStreaks [20089, 20090] 2025 0).maxStreakDays.length
          = (calculateStreaks [20089, 20090] 2025 0).maxStreak ∧
      (calculateStreaks [20089, 20090] 2025 0).maxStreakDays.Nodup ∧
      ∃ a : Int, (calculateStreaks [20089, 20090] 2025 0).maxStreakDays
          = (List.range (calculateStreaks [20089, 20090] 2025 0).maxStreak).map
              (fun k : Nat => a + (k : Int))) :=
  ⟨by decide, (calculateStreaks_invariants [20089, 20090] 2025 0).1 (by decide)⟩

/-- C8: over the requested year's active dates, the reported
`maxStreakDays` segment is a complete run of consecutive days (a gap or the
array boundary on both sides), no consecutive segment is longer than
`maxStreak`, and every consecutive segment of length exactly `maxStreak`
starts at or after the reported one — i.e. on ties the earliest maximal run
wins and later runs of equal length do not overwrite it. -/
theorem calculateStreaks_first_maximal_run (keys : List Int) (year today : Int)
    (h : activeDatesOf keys year ≠ []) :
    ∃ start : Nat,
      (calculateStreaks keys year today).maxStreakDays
        = ((activeDatesOf keys year).take
            (start + (calculateStreaks keys year today).maxStreak)).drop start ∧
      ConsecSeg (activeDatesOf keys year) start
        (start + (calculateStreaks keys year today).maxStreak - 1) ∧
      (start = 0 ∨ ¬ LinkAt (activeDatesOf keys year) (start - 1)) ∧
      (start + (calculateStreaks keys year today).maxStreak
          = (activeDatesOf keys year).length ∨
        ¬ LinkAt (activeDatesOf keys year)
          (start + (calculateStreaks keys year today).maxStreak - 1)) ∧
      (∀ a b, b + 1 ≤ (activeDatesOf keys year).length →
        ConsecSeg (activeDatesOf keys year) a b →
        b + 1 ≤ a + (calculateStreaks keys year today).maxStreak) ∧
      (∀ a b, b + 1 ≤ (activeDatesOf keys year).length →
        ConsecSeg (activeDatesOf keys year) a b →
        b + 1 = a + (calculateStreaks keys year today).maxStreak → start ≤ a) := by
  rw [calculateStreaks_of_ne keys year today h]
  set D := activeDatesOf keys year with hD
  obtain inv := streakScan_inv D h
  set s := streakScan D with hs
  dsimp only
  have hml := inv.maxLen
  have hme := inv.maxEndLt
  have hmp := inv.maxPos
  have hend : s.maxStreakStart + s.maxStreak - 1 = s.maxStreakEnd := by omega
  refine ⟨s.maxStreakStart, ?_, ?_, ?_, ?_, inv.maxInv, inv.firstInv⟩
  · rw [hml]
  · rw [hend]
    exact inv.maxCon
  · by_cases hz : s.maxStreakStart = 0
    · exact Or.inl hz
    · refine Or.inr ?_
      intro hlink
      have hcon2 : ConsecSeg D (s.maxStreakStart - 1) s.maxStreakEnd := by
        intro j hj1 hj2
        rcases Nat.lt_or_ge j s.maxStreakStart with hlt | hge2
        · have hj : j = s.maxStreakStart - 1 := by omega
          rw [hj]
          exact hlink
        · exact inv.maxCon j hge2 hj2
      have := inv.maxInv (s.maxStreakStart - 1) s.maxStreakEnd hme hcon2
      omega
  · rw [hml]
    simp only [Nat.add_sub_cancel]
    by_cases hfin : s.maxStreakEnd + 1 = D.length
    · exact Or.inl hfin
    · refine Or.inr ?_
      intro hlink
      have hcon2 : ConsecSeg D s.maxStreakStart (s.maxStreakEnd + 1) := by
        intro j hj1 hj2
        rcases Nat.lt_or_ge j s.maxStreakEnd with hlt | hge2
        · exact inv.maxCon j hj1 (by omega)
        · have hj : j = s.maxStreakEnd := by omega
          rw [hj]
          exact hlink
      have hle : s.maxStreakEnd + 1 + 1 ≤ D.length := by omega
      have := inv.maxInv s.maxStreakStart (s.maxStreakEnd + 1) hle hcon2
      omega

/-- C8 witness: two runs of length 2 in 2025 (days 20089-20090 and
20095-20096); the earlier one is the reported `maxStreakDays`. -/
theorem calculateStreaks_first_maximal_run_witness :
    activeDatesOf [20089, 20090, 20095, 20096] 2025 ≠ [] ∧
    (calculateStreaks [20089, 20090, 20095, 20096] 2025 0).maxStreakDays = [20089, 20090] ∧
    (∃ start : Nat,
      (calculateStreaks [20089, 20090, 20095, 20096] 2025 0).maxStreakDays
        = ((activeDatesOf [20089, 20090, 20095, 20096] 2025).take
            (start + (calculateStreaks [20089, 20090, 20095, 20096] 2025 0).maxStreak)).drop start ∧
      ConsecSeg (activeDatesOf [20089, 20090, 20095, 20096] 2025) start
        (start + (calculateStreaks [20089, 20090, 20095, 20096] 2025 0).maxStreak - 1) ∧
      (start = 0 ∨ ¬ LinkAt (activeDatesOf [20089, 20090, 20095, 20096] 2025) (start - 1)) ∧
      (start + (calculateStreaks [20089, 20090, 20095, 20096] 2025 0).maxStreak
          = (activeDatesOf [20089, 20090, 20095, 20096] 2025).length ∨
        ¬ LinkAt (activeDatesOf [20089, 20090, 20095, 20096] 2025)
          (start + (calculateStreaks [20089, 20090, 20095, 20096] 2025 0).maxStreak - 1)) ∧
      (∀ a b, b + 1 ≤ (activeDatesOf [20089, 20090, 20095, 20096] 2025).length →
        ConsecSeg (activeDatesOf [20089, 20090, 20095, 20096] 2025) a b →
        b + 1 ≤ a + (calculateStreaks [20089, 20090, 20095, 20096] 2025 0).maxStreak) ∧
      (∀ a b, b + 1 ≤ (activeDatesOf [20089, 20090, 20095, 20096] 2025).length →
        ConsecSeg (activeDatesOf [20089, 20090, 20095, 20096] 2025) a b →
        b + 1 = a + (calculateStreaks [20089, 20090, 20095, 20096] 2025 0).maxStreak →
        start ≤ a)) :=
  ⟨by decide, by decide,
    calculateStreaks_first_maximal_run [20089, 20090, 20095, 20096] 2025 0 (by decide)⟩

end OCWrapped

namespace OCWrapped

/-! ### Current-streak lemmas -/

theorem countRun_mem (keys : List Int) :
    ∀ (fuel : Nat) (d : Int) (j : Nat), j < countRun keys fuel d → (d - j) ∈ keys := by
  intro fuel
  induction fuel with
  | zero =>
      intro d j hj
      simp [countRun] at hj
  | succ fuel ihf =>
      intro d j hj
      rw [countRun] at hj
      by_cases hd : d ∈ keys
      · rw [if_pos hd] at hj
        match j with
        | 0 => simpa using hd
        | Nat.succ j2 =>
            have hj2 : j2 < countRun keys fuel (d - 1) := by omega
            have := ihf (d - 1) j2 hj2
            have harith : d - (j2 + 1 : Nat) = (d - 1) - (j2 : Int) := by
              push_cast
              ring
            rw [harith]
            exact this
      · rw [if_neg hd] at hj
        omega

theorem countRun_stop (keys : List Int) :
    ∀ (fuel : Nat) (d : Int), countRun keys fuel d < fuel →
      (d - (countRun keys fuel d : Int)) ∉ keys := by
  intro fuel
  induction fuel with
  | zero =>
      intro d h
      omega
  | succ fuel ihf =>
      intro d h
      rw [countRun] at h ⊢
      by_cases hd : d ∈ keys
      · rw [if_pos hd] at h ⊢
        have h2 : countRun keys fuel (d - 1) < fuel := by omega
        have := ihf (d - 1) h2
        have harith : d - ((countRun keys fuel (d - 1) + 1 : Nat) : Int)
            = (d - 1) - (countRun keys fuel (d - 1) : Int) := by
          push_cast
          ring
        rw [harith]
        exact this
      · rw [if_neg hd]
        simpa using hd

theorem countRun_le_length (keys : List Int) (fuel : Nat) (d : Int) :
    countRun keys fuel d ≤ keys.length := by
  set n := countRun keys fuel d with hn
  set L := (List.range n).map (fun j : Nat => d - (j : Int)) with hL
  have hLnd : L.Nodup := by
    refine List.Nodup.map ?_ (List.nodup_range n)
    intro x y hxy
    simp only at hxy
    omega
  have hsub : ∀ x ∈ L, x ∈ keys := by
    intro x hx
    rw [hL, List.mem_map] at hx
    obtain ⟨j, hj, rfl⟩ := hx
    rw [List.mem_range] at hj
    exact countRun_mem keys fuel d j hj
  have h1 : L.toFinset.card = L.length := List.toFinset_card_of_nodup hLnd
  have h2 : L.toFinset ⊆ keys.toFinset := by
    intro x hx
    rw [List.mem_toFinset] at hx ⊢
    exact hsub x hx
  have h3 := Finset.card_le_card h2
  have h4 := List.toFinset_card_le keys
  have h5 : L.length = n := by
    rw [hL, List.length_map, List.length_range]
  omega

theorem currentStreakCalc_spec (keys : List Int) (today : Int) :
    (today ∈ keys →
        1 ≤ currentStreakCalc keys today ∧
        (∀ j : Nat, j < currentStreakCalc keys today → today - (j : Int) ∈ keys) ∧
        today - (currentStreakCalc keys today : Int) ∉ keys) ∧
    (today ∉ keys → (today - 1) ∈ keys →
        1 ≤ currentStreakCalc keys today ∧
        (∀ j : Nat, j < currentStreakCalc keys today → (today - 1) - (j : Int) ∈ keys) ∧
        (today - 1) - (currentStreakCalc keys today : Int) ∉ keys) ∧
    (today ∉ keys → (today - 1) ∉ keys → currentStreakCalc keys today = 0) := by
  refine ⟨?_, ?_, ?_⟩
  · intro ht
    unfold currentStreakCalc
    rw [if_pos ht]
    set c := countRun keys (keys.length + 1) (today - 1) with hc
    have hcle : c ≤ keys.length := countRun_le_length keys _ _
    have hstop := countRun_stop keys (keys.length + 1) (today - 1) (by omega)
    refine ⟨by omega, ?_, ?_⟩
    · intro j hj
      match j with
      | 0 => simpa using ht
      | Nat.succ j2 =>
          have hj2 : j2 < c := by omega
          have := countRun_mem keys (keys.length + 1) (today - 1) j2 hj2
          have harith : today - ((j2 + 1 : Nat) : Int) = (today - 1) - (j2 : Int) := by
            push_cast
            ring
          rw [harith]
          exact this
    · have harith : today - ((1 + c : Nat) : Int) = (today - 1) - (c : Int) := by
        push_cast
        ring
      rw [harith]
      exact hstop
  · intro ht ht1
    unfold currentStreakCalc
    rw [if_neg ht, if_pos ht1]
    set c := countRun keys (keys.length + 1) (today - 2) with hc
    have hcle : c ≤ keys.length := countRun_le_length keys _ _
    have hstop := countRun_stop keys (keys.length + 1) (today - 2) (by omega)
    refine ⟨by omega, ?_, ?_⟩
    · intro j hj
      match j with
      | 0 => simpa using ht1
      | Nat.succ j2 =>
          have hj2 : j2 < c := by omega
          have := countRun_mem keys (keys.length + 1) (today - 2) j2 hj2
          have harith : (today - 1) - ((j2 + 1 : Nat) : Int) = (today - 2) - (j2 : Int) := by
            push_cast
            ring
          rw [harith]
          exact this
    · have harith : (today - 1) - ((1 + c : Nat) : Int) = (today - 2) - (c : Int) := by
        push_cast
        ring
      rw [harith]
      exact hstop
  · intro ht ht1
    unfold currentStreakCalc
    rw [if_neg ht, if_neg ht1]

end OCWrapped

namespace OCWrapped

theorem length_insertAsc (x : Int) (l : List Int) :
    (insertAsc x l).length = l.length + 1 := by
  induction l with
  | nil => rfl
  | cons y ys ih =>
      by_cases h : x ≤ y <;> simp [insertAsc, h, ih]

theorem length_sortAsc (l : List Int) : (sortAsc l).length = l.length := by
  induction l with
  | nil => rfl
  | cons y ys ih =>
      show (insertAsc y (sortAsc ys)).length = ys.length + 1
      rw [length_insertAsc, ih]

theorem activeDatesOf_ne_nil_of_mem (keys : List Int) (year : Int) (k : Int)
    (hk : k ∈ keys) (hyk : civilYear k = year) : activeDatesOf keys year ≠ [] := by
  intro hcon
  have h1 : k ∈ keys.filter (fun d => decide (civilYear d = year)) := by
    rw [List.mem_filter]
    exact ⟨hk, by simp [hyk]⟩
  have h3 : (keys.filter fun d => decide (civilYear d = year)) = [] := by
    have hlen := length_sortAsc (keys.filter fun d => decide (civilYear d = year))
    unfold activeDatesOf at hcon
    rw [hcon] at hlen
    exact List.length_eq_zero.mp hlen.symm
  rw [h3] at h1
  exact absurd h1 (List.not_mem_nil k)

/-- C9: for a daily-activity key set lying in the requested year (as every
map built by `calculateStats` does), the reported `currentStreak` is the
number of consecutive active days ending at today when today is active —
that is, it is positive, the `currentStreak` days ending at today are all
active, and the day before them is not; anchored at yesterday instead when
only yesterday is active; and `0` when neither is active. -/
theorem currentStreak_consecutive_spec (keys : List Int) (year today : Int)
    (hy : ∀ k ∈ keys, civilYear k = year) :
    (today ∈ keys →
        1 ≤ (calculateStreaks keys year today).currentStreak ∧
        (∀ j : Nat, j < (calculateStreaks keys year today).currentStreak →
          today - (j : Int) ∈ keys) ∧
        today - ((calculateStreaks keys year today).currentStreak : Int) ∉ keys) ∧
    (today ∉ keys → (today - 1) ∈ keys →
        1 ≤ (calculateStreaks keys year today).currentStreak ∧
        (∀ j : Nat, j < (calculateStreaks keys year today).currentStreak →
          (today - 1) - (j : Int) ∈ keys) ∧
        (today - 1) - ((calculateStreaks keys year today).currentStreak : Int) ∉ keys) ∧
    (today ∉ keys → (today - 1) ∉ keys →
        (calculateStreaks keys year today).currentStreak = 0) := by
  have hred : ∀ k, k ∈ keys →
      (calculateStreaks keys year today).currentStreak = currentStreakCalc keys today := by
    intro k hk
    have hne := activeDatesOf_ne_nil_of_mem keys year k hk (hy k hk)
    rw [calculateStreaks_of_ne keys year today hne]
  refine ⟨?_, ?_, ?_⟩
  · intro ht
    rw [hred today ht]
    exact (currentStreakCalc_spec keys today).1 ht
  · intro ht ht1
    rw [hred (today - 1) ht1]
    exact (currentStreakCalc_spec keys today).2.1 ht ht1
  · intro ht ht1
    by_cases he : activeDatesOf keys year = []
    · simp [calculateStreaks, he]
    · rw [calculateStreaks_of_ne keys year today he]
      exact (currentStreakCalc_spec keys today).2.2 ht ht1

/-- C9 witness: scenario F — today (day 20454, in 2026) has no activity, a
4-day run of 2025 days ends yesterday, and `currentStreak = 4`. -/
theorem currentStreak_consecutive_spec_witness :
    (∀ k ∈ ([20450, 20451, 20452, 20453] : List Int), civilYear k = 2025) ∧
    (20454 : Int) ∉ ([20450, 20451, 20452, 20453] : List Int) ∧
    ((20454 : Int) - 1) ∈ ([20450, 20451, 20452, 20453] : List Int) ∧
    (calculateStreaks [20450, 20451, 20452, 20453] 2025 20454).currentStreak = 4 ∧
    (1 ≤ (calculateStreaks [20450, 20451, 20452, 20453] 2025 20454).currentStreak ∧
      (∀ j : Nat, j < (calculateStreaks [20450, 20451, 20452, 20453] 2025 20454).currentStreak →
        ((20454 : Int) - 1) - (j : Int) ∈ ([20450, 20451, 20452, 20453] : List Int)) ∧
      ((20454 : Int) - 1) -
          ((calculateStreaks [20450, 20451, 20452, 20453] 2025 20454).currentStreak : Int)
        ∉ ([20450, 20451, 20452, 20453] : List Int)) :=
  ⟨by decide, by decide, by decide, by decide,
    (currentStreak_consecutive_spec [20450, 20451, 20452, 20453] 2025 20454
        (by decide)).2.1 (by decide) (by decide)⟩

end OCWrapped

namespace OCWrapped

/-! ### Daily-activity key lemmas -/

theorem bump_keys {α : Type} [DecidableEq α] (l : List (α × Nat)) (k : α) :
    (bump l k).map (fun p => p.1)
      = if k ∈ l.map (fun p => p.1) then l.map (fun p => p.1)
        else l.map (fun p => p.1) ++ [k] := by
  induction l with
  | nil => simp [bump]
  | cons p rest ih =>
      obtain ⟨k0, c⟩ := p
      by_cases hk : k0 = k
      · subst hk
        simp [bump]
      · simp only [bump, if_neg hk, List.map_cons, ih, List.mem_cons]
        by_cases hm : k ∈ rest.map (fun p => p.1)
        · simp [hm, Ne.symm hk]
        · simp [hm, Ne.symm hk]

theorem foldl_bump_keys_mem (msgs : List MessageData) :
    ∀ (acc : List (Int × Nat)) (k : Int),
      k ∈ ((msgs.foldl (fun a m => bump a (dayOf m)) acc).map (fun p => p.1)) →
      k ∈ acc.map (fun p => p.1) ∨ k ∈ msgs.map dayOf := by
  induction msgs with
  | nil =>
      intro acc k h
      exact Or.inl h
  | cons m rest ih =>
      intro acc k h
      rw [List.foldl_cons] at h
      rcases ih (bump acc (dayOf m)) k h with h1 | h2
      · rw [bump_keys] at h1
        by_cases hm : dayOf m ∈ acc.map (fun p => p.1)
        · rw [if_pos hm] at h1
          exact Or.inl h1
        · rw [if_neg hm] at h1
          rw [List.mem_append] at h1
          rcases h1 with h1a | h1b
          · exact Or.inl h1a
          · simp only [List.mem_singleton] at h1b
            subst h1b
            exact Or.inr (by simp)
      · exact Or.inr (by simp [h2])

theorem dailyActivity_keys_year (year : Int) (msgs : List MessageData) :
    ∀ k ∈ ((dailyActivity
        (msgs.filter (fun m => decide (civilYear (dayOf m) = year)))).map (fun p => p.1)),
      civilYear k = year := by
  intro k hk
  rcases foldl_bump_keys_mem _ [] k (by simpa [dailyActivity] using hk) with h | h
  · simp at h
  · rw [List.mem_map] at h
    obtain ⟨m, hm, rfl⟩ := h
    rw [List.mem_filter] at hm
    simpa using hm.2

/-- C3 amended: `currentStreak` is computed from the requested year's
messages only; whenever neither today nor yesterday falls in the requested
year — the situation whenever stats are computed for a past year — the
engine reports `currentStreak = 0`, whatever the history holds. -/
theorem currentStreak_anchor_outside_year (year nowMs : Int)
    (allSessions : List SessionData) (allMessages : List MessageData)
    (projects : List ProjectData)
    (h1 : civilYear (msToDay nowMs) ≠ year)
    (h2 : civilYear (msToDay nowMs - 1) ≠ year) :
    (calculateStats year nowMs allSessions allMessages projects).currentStreak = 0 := by
  have hkeys := dailyActivity_keys_year year allMessages
  set keys := (dailyActivity
      (allMessages.filter (fun m => decide (civilYear (dayOf m) = year)))).map
      (fun p => p.1) with hkeysdef
  have ht : msToDay nowMs ∉ keys := fun hmem => h1 (hkeys _ hmem)
  have ht1 : msToDay nowMs - 1 ∉ keys := fun hmem => h2 (hkeys _ hmem)
  show (calculateStreaks keys year (msToDay nowMs)).currentStreak = 0
  by_cases he : activeDatesOf keys year = []
  · simp [calculateStreaks, he]
  · rw [calculateStreaks_of_ne keys year (msToDay nowMs) he]
    exact (currentStreakCalc_spec keys (msToDay nowMs)).2.2 ht ht1

/-- Assistant message carrying nothing but a creation day (epoch day). -/
def dayMsg (day : Int) : MessageData :=
  { role := Role.assistant, created := day * 86400000, modelID := none,
    providerID := none, cost := none, tokens := none }

/-- C3 counterexample: the history holds messages on 2025-12-31 (day 20453),
2026-01-01 (20454) and 2026-01-02 (20455); today is 2026-01-02 and stats are
requested for 2025.  The engine reports `currentStreak = 0`, while the same
current-streak walk over the entire history's day keys finds 3 consecutive
active days ending today — the year-boundary streak is not reported. -/
theorem currentStreak_year_boundary_counterexample :
    (calculateStats 2025 (20455 * 86400000) []
        [dayMsg 20453, dayMsg 20454, dayMsg 20455] []).currentStreak = 0 ∧
    currentStreakCalc ([dayMsg 20453, dayMsg 20454, dayMsg 20455].map dayOf)
        (msToDay (20455 * 86400000)) = 3 := by
  refine ⟨by decide, by decide⟩

/-- C3 witness for the amended statement. -/
theorem currentStreak_anchor_outside_year_witness :
    civilYear (msToDay (20455 * 86400000)) ≠ 2025 ∧
    civilYear (msToDay (20455 * 86400000) - 1) ≠ 2025 ∧
    (calculateStats 2025 (20455 * 86400000) [] [dayMsg 20453] []).currentStreak = 0 :=
  ⟨by decide, by decide,
    currentStreak_anchor_outside_year 2025 (20455 * 86400000) [] [dayMsg 20453] []
      (by decide) (by decide)⟩

end OCWrapped

namespace OCWrapped

/-! ### Token totals (C1) -/

/-- Per-message input tokens as read by the accumulation loop
(`tokens.input || 0`, absent breakdown counted as zero). -/
def inputTokensOf (m : MessageData) : Nat :=
  match m.tokens with
  | some t => t.input.getD 0
  | none => 0

/-- Per-message output tokens as read by the accumulation loop. -/
def outputTokensOf (m : MessageData) : Nat :=
  match m.tokens with
  | some t => t.output.getD 0
  | none => 0

theorem tokenTotals_eq (msgs : List MessageData) :
    tokenTotals msgs = ((msgs.map inputTokensOf).sum, (msgs.map outputTokensOf).sum) := by
  suffices h : ∀ acc : Nat × Nat,
      msgs.foldl
        (fun acc m =>
          match m.tokens with
          | some t => (acc.1 + t.input.getD 0, acc.2 + t.output.getD 0)
          | none => acc)
        acc
      = (acc.1 + (msgs.map inputTokensOf).sum, acc.2 + (msgs.map outputTokensOf).sum) by
    have h2 := h (0, 0)
    simpa [tokenTotals] using h2
  induction msgs with
  | nil =>
      intro acc
      simp
  | cons m rest ih =>
      intro acc
      rw [List.foldl_cons]
      cases htok : m.tokens with
      | none =>
          simp only [htok]
          rw [ih]
          simp [inputTokensOf, outputTokensOf, htok]
      | some t =>
          simp only [htok]
          rw [ih]
          simp only [inputTokensOf, outputTokensOf, htok, List.map_cons, List.sum_cons,
            Prod.mk.injEq]
          constructor <;> omega

/-- C1 amended: the engine's `totalInputTokens` and `totalOutputTokens` are
the sums of the per-message input and output fields over the requested
year's messages (absent breakdowns and sub-fields counted as zero), but
`totalTokens` equals `totalOutputTokens` alone (`stats.ts` line 45), not
their sum. -/
theorem totalTokens_output_only (year nowMs : Int) (allSessions : List SessionData)
    (allMessages : List MessageData) (projects : List ProjectData) :
    (calculateStats year nowMs allSessions allMessages projects).totalInputTokens
      = ((allMessages.filter (fun m => decide (civilYear (dayOf m) = year))).map
          inputTokensOf).sum ∧
    (calculateStats year nowMs allSessions allMessages projects).totalOutputTokens
      = ((allMessages.filter (fun m => decide (civilYear (dayOf m) = year))).map
          outputTokensOf).sum ∧
    (calculateStats year nowMs allSessions allMessages projects).totalTokens
      = ((allMessages.filter (fun m => decide (civilYear (dayOf m) = year))).map
          outputTokensOf).sum := by
  refine ⟨?_, ?_, ?_⟩
  · show (tokenTotals
        (allMessages.filter (fun m => decide (civilYear (dayOf m) = year)))).1 = _
    rw [tokenTotals_eq]
  · show (tokenTotals
        (allMessages.filter (fun m => decide (civilYear (dayOf m) = year)))).2 = _
    rw [tokenTotals_eq]
  · show (tokenTotals
        (allMessages.filter (fun m => decide (civilYear (dayOf m) = year)))).2 = _
    rw [tokenTotals_eq]

/-- Message in 2025 with 100 input and 50 output tokens. -/
def tokMsg : MessageData :=
  { role := Role.assistant, created := 20089 * 86400000, modelID := none,
    providerID := none, cost := none,
    tokens := some { input := some 100, output := some 50, reasoning := none,
                     cacheRead := none, cacheWrite := none } }

/-- C1 counterexample: on a single 2025 message with `input = 100` and
`output = 50` the engine reports `totalTokens = 50`, not
`totalInputTokens + totalOutputTokens = 150`. -/
theorem totalTokens_counterexample :
    ¬ ((calculateStats 2025 0 [] [tokMsg] []).totalTokens
        = (calculateStats 2025 0 [] [tokMsg] []).totalInputTokens
          + (calculateStats 2025 0 [] [tokMsg] []).totalOutputTokens) := by
  decide

/-- C10: with no sessions at all in the corpus, `calculateStats` returns
`daysSinceFirstSession = 0` and `firstSessionDate` equal to the invocation
time — the guarded branch rather than the `Math.min()`-of-nothing
`Infinity`. -/
theorem calculateStats_empty_sessions (year nowMs : Int)
    (allMessages : List MessageData) (projects : List ProjectData) :
    (calculateStats year nowMs [] allMessages projects).firstSessionDate = nowMs ∧
    (calculateStats year nowMs [] allMessages projects).daysSinceFirstSession = 0 :=
  ⟨rfl, rfl⟩

/-! ### Ranked lists (C4) -/

theorem mem_insertDescBy {α : Type} (key : α → Nat) (x : α) (l : List α) (z : α) :
    z ∈ insertDescBy key x l ↔ z = x ∨ z ∈ l := by
  induction l with
  | nil => simp [insertDescBy]
  | cons y ys ih =>
      by_cases h : key y < key x
      · simp [insertDescBy, h]
      · simp [insertDescBy, h, ih]
        tauto

theorem pairwise_insertDescBy {α : Type} (key : α → Nat) (x : α) (l : List α)
    (hl : l.Pairwise (fun a b => key b ≤ key a)) :
    (insertDescBy key x l).Pairwise (fun a b => key b ≤ key a) := by
  induction l with
  | nil => simp [insertDescBy]
  | cons y ys ih =>
      rw [List.pairwise_cons] at hl
      obtain ⟨hy, hys⟩ := hl
      by_cases h : key y < key x
      · simp only [insertDescBy, if_pos h]
        rw [List.pairwise_cons]
        constructor
        · intro a ha
          rcases List.mem_cons.mp ha with rfl | ha2
          · exact le_of_lt h
          · exact le_trans (hy a ha2) (le_of_lt h)
        · exact List.pairwise_cons.mpr ⟨hy, hys⟩
      · simp only [insertDescBy, if_neg h]
        rw [List.pairwise_cons]
        constructor
        · intro a ha
          rcases (mem_insertDescBy key x ys a).mp ha with rfl | ha2
          · omega
          · exact hy a ha2
        · exact ih hys

theorem pairwise_sortDescBy {α : Type} (key : α → Nat) (l : List α) :
    (sortDescBy key l).Pairwise (fun a b => key b ≤ key a) := by
  suffices h : ∀ acc : List α, acc.Pairwise (fun a b => key b ≤ key a) →
      (l.foldl (fun acc x => insertDescBy key x acc) acc).Pairwise
        (fun a b => key b ≤ key a) by
    exact h [] (by simp)
  induction l with
  | nil =>
      intro acc h
      exact h
  | cons x xs ih =>
      intro acc h
      rw [List.foldl_cons]
      exact ih _ (pairwise_insertDescBy key x acc h)

/-- C4 amended: `topModels` has at most 3 entries (`slice(0, 3)`) but
`topProviders` has at most 10 (`slice(0, 10)` in `stats.ts` line 89); both
are sorted non-increasingly by count. -/
theorem topLists_bounded_sorted (msgs : List MessageData) :
    (topModels msgs).length ≤ 3 ∧
    (topModels msgs).Pairwise (fun a b => b.count ≤ a.count) ∧
    (topProviders msgs).length ≤ 10 ∧
    (topProviders msgs).Pairwise (fun a b => b.count ≤ a.count) := by
  refine ⟨?_, ?_, ?_, ?_⟩
  · simp only [topModels]
    rw [List.length_take]
    omega
  · simp only [topModels]
    apply List.Pairwise.sublist (List.take_sublist _ _)
    rw [List.pairwise_map]
    exact pairwise_sortDescBy (fun p => p.2) (modelCounts msgs)
  · simp only [topProviders]
    rw [List.length_map, List.length_take]
    omega
  · simp only [topProviders]
    rw [List.pairwise_map]
    apply List.Pairwise.sublist (List.take_sublist _ _)
    exact pairwise_sortDescBy (fun p => p.2) (providerCounts msgs)

/-- Assistant message from provider `p` on a 2025 day. -/
def provMsg (p : String) : MessageData :=
  { role := Role.assistant, created := 20089 * 86400000, modelID := none,
    providerID := some p, cost := none, tokens := none }

/-- C4 counterexample: with four distinct providers the engine's
`topProviders` has 4 entries, exceeding the claimed bound of 3. -/
theorem topProviders_length_counterexample :
    ¬ ((calculateStats 2025 0 []
          [provMsg "a", provMsg "b", provMsg "c", provMsg "d"] []).topProviders.length
        ≤ 3) := by
  decide

end OCWrapped

namespace OCWrapped

/-! ### Estimated cost (C5, spec-modelled pass) -/

theorem estimatedCost_append (pricing : String → Option ModelCost)
    (msgs : List MessageData) (m : MessageData) :
    estimatedCost pricing (msgs ++ [m])
      = estimatedCost pricing msgs + messageEstimatedCost pricing m := by
  unfold estimatedCost
  rw [List.foldl_append]
  simp

/-- C5: a message not from the first-party provider `"opencode"` with a model
identity and a token breakdown contributes
`input × input_rate/1e6 + output × output_rate/1e6` plus the cache terms when
those rates are present, taken from the `PriceEntry` matching its model; a
model without a matching entry contributes zero. -/
theorem estimatedCost_contribution (pricing : String → Option ModelCost)
    (msgs : List MessageData) (m : MessageData) (mid : String) (t : TokensData)
    (hp : m.providerID ≠ some "opencode") (hm : m.modelID = some mid)
    (ht : m.tokens = some t) :
    (∀ pc : ModelCost, pricing mid = some pc →
        estimatedCost pricing (msgs ++ [m])
          = estimatedCost pricing msgs
            + ((t.input.getD 0 : Rat) * pc.input / 1000000
               + (t.output.getD 0 : Rat) * pc.output / 1000000
               + (match pc.cacheRead with
                  | some r => (t.cacheRead.getD 0 : Rat) * r / 1000000
                  | none => 0)
               + (match pc.cacheWrite with
                  | some w => (t.cacheWrite.getD 0 : Rat) * w / 1000000
                  | none => 0))) ∧
    (pricing mid = none → estimatedCost pricing (msgs ++ [m]) = estimatedCost pricing msgs) := by
  constructor
  · intro pc hpc
    rw [estimatedCost_append]
    simp [messageEstimatedCost, hp, hm, ht, hpc]
  · intro hpc
    rw [estimatedCost_append]
    simp [messageEstimatedCost, hp, hm, ht, hpc]

/-- Scenario C tokens: 100 input, 50 output. -/
def tokC5 : TokensData :=
  { input := some 100, output := some 50, reasoning := none,
    cacheRead := none, cacheWrite := none }

/-- Scenario C message: non-first-party provider, priced model. -/
def msgC5 : MessageData :=
  { role := Role.assistant, created := 20089 * 86400000, modelID := some "m5",
    providerID := some "anthropic", cost := none, tokens := some tokC5 }

/-- Scenario C price entry: 3 and 15 currency units per million tokens. -/
def pcC5 : ModelCost :=
  { input := 3, output := 15, cacheRead := none, cacheWrite := none }

/-- Scenario C price table. -/
def pricingC5 (mid : String) : Option ModelCost :=
  if mid = "m5" then some pcC5 else none

/-- C5 witness: scenario C — the message contributes
`100 × 3/1e6 + 50 × 15/1e6` to the estimated-cost total. -/
theorem estimatedCost_contribution_witness :
    msgC5.providerID ≠ some "opencode" ∧
    estimatedCost pricingC5 ([] ++ [msgC5])
      = estimatedCost pricingC5 []
        + ((tokC5.input.getD 0 : Rat) * pcC5.input / 1000000
           + (tokC5.output.getD 0 : Rat) * pcC5.output / 1000000
           + (match pcC5.cacheRead with
              | some r => (tokC5.cacheRead.getD 0 : Rat) * r / 1000000
              | none => 0)
           + (match pcC5.cacheWrite with
              | some w => (tokC5.cacheWrite.getD 0 : Rat) * w / 1000000
              | none => 0)) ∧
    estimatedCost pricingC5 [msgC5] = (100 * 3 + 50 * 15 : Rat) / 1000000 :=
  ⟨by decide,
   (estimatedCost_contribution pricingC5 [] msgC5 "m5" tokC5 (by decide) rfl rfl).1
     pcC5 rfl,
   by
     have hne : ¬ ("anthropic" : String) = "opencode" := by decide
     norm_num [estimatedCost, messageEstimatedCost, pricingC5, msgC5, tokC5, pcC5, hne]⟩

/-! ### Collector error policy (C7) -/

/-- A corpus whose root exists but whose `session` subdirectory cannot be
enumerated. -/
def fsSessionMissing : CorpusFS :=
  { rootExists := true, sessionDir := none, messageDir := some [],
    projectDir := some [] }

/-- C7 counterexample: with the root present but the `session` record-kind
subdirectory missing, `collectSessions` propagates an error instead of
returning the empty list the claim promises. -/
theorem collectSessions_missing_dir_counterexample :
    fsSessionMissing.rootExists = true ∧
    collectSessions fsSessionMissing (some 2025) = Except.error "Failed to read sessions" ∧
    collectSessions fsSessionMissing (some 2025) ≠ Except.ok [] := by
  refine ⟨rfl, rfl, ?_⟩
  intro hcontra
  exact Except.noConfusion hcontra

/-- C7 amended: `collectSessions` and `collectMessages` propagate an error
exactly when their own record-kind subdirectory cannot be enumerated (which
includes a missing corpus root); an unreadable per-project subdirectory
inside contributes zero records; `collectProjects` never propagates an
error and yields an empty list when its directory is unreadable. -/
theorem collectors_error_policy (fs : CorpusFS) (year : Option Int) :
    ((∃ e, collectSessions fs year = Except.error e) ↔ fs.sessionDir = none) ∧
    ((∃ e, collectMessages fs year = Except.error e) ↔ fs.messageDir = none) ∧
    (fs.projectDir = none → collectProjects fs = []) ∧
    (∀ dirs1 dirs2 d, d.files = none →
      fs.sessionDir = some (dirs1 ++ d :: dirs2) →
      collectSessions fs year
        = Except.ok ((dirs1 ++ dirs2).flatMap (dirRecords (fun s => s.created) year))) := by
  refine ⟨?_, ?_, ?_, ?_⟩
  · cases hs : fs.sessionDir with
    | none => simp [collectSessions, hs]
    | some dirs => simp [collectSessions, hs]
  · cases hs : fs.messageDir with
    | none => simp [collectMessages, hs]
    | some dirs => simp [collectMessages, hs]
  · intro hp
    simp [collectProjects, hp]
  · intro dirs1 dirs2 d hd hfs
    simp [collectSessions, hfs, List.flatMap_append, dirRecords, hd]

/-- A corpus with one unreadable per-project subdirectory and no readable
`project` directory. -/
def fsInnerMissing : CorpusFS :=
  { rootExists := true,
    sessionDir := some [{ name := "proj", files := none }],
    messageDir := some [], projectDir := none }

/-- C7 witness for the amended statement at a concrete corpus. -/
theorem collectors_error_policy_witness :
    collectProjects fsInnerMissing = [] ∧
    collectSessions fsInnerMissing (some 2025)
      = Except.ok ((([] : List (DirEntry SessionData)) ++ []).flatMap
          (dirRecords (fun s => s.created) (some 2025))) :=
  ⟨(collectors_error_policy fsInnerMissing (some 2025)).2.2.1 rfl,
   (collectors_error_policy fsInnerMissing (some 2025)).2.2.2 [] []
     { name := "proj", files := none } rfl rfl⟩

end OCWrapped

namespace OCWrapped

/-! ### Weekday histogram (C6, spec-modelled pass) -/

theorem weekdayOf_lt (d : Int) : weekdayOf d < 7 := by
  unfold weekdayOf
  have h1 : 0 ≤ (d + 4) % 7 := Int.emod_nonneg _ (by norm_num)
  have h2 : (d + 4) % 7 < 7 := Int.emod_lt_of_pos _ (by norm_num)
  omega

theorem getD_set_ne_nat (l : List Nat) (w i v : Nat) (h : i ≠ w) :
    (l.set w v).getD i 0 = l.getD i 0 := by
  rcases Nat.lt_or_ge i l.length with hlt | hge
  · rw [List.getD_eq_getElem _ _ (by rw [List.length_set]; exact hlt),
      List.getD_eq_getElem _ _ hlt]
    exact List.getElem_set_ne (fun hc => h hc.symm) _
  · rw [List.getD_eq_getElem?_getD, List.getD_eq_getElem?_getD]
    rw [List.getElem?_eq_none (by rw [List.length_set]; exact hge),
      List.getElem?_eq_none hge]

theorem getD_set_self_nat (l : List Nat) (w v : Nat) (h : w < l.length) :
    (l.set w v).getD w 0 = v := by
  rw [List.getD_eq_getElem _ _ (by rw [List.length_set]; exact h)]
  exact List.getElem_set_self _

theorem weekdayCounts_go (year : Int) (msgs : List MessageData) :
    ∀ acc : List Nat, acc.length = 7 →
      (msgs.foldl
          (fun acc m =>
            if civilYear (dayOf m) = year then
              acc.set (weekdayOf (dayOf m)) (acc.getD (weekdayOf (dayOf m)) 0 + 1)
            else acc)
          acc).length = 7 ∧
      (∀ i, i < 7 →
        (msgs.foldl
            (fun acc m =>
              if civilYear (dayOf m) = year then
                acc.set (weekdayOf (dayOf m)) (acc.getD (weekdayOf (dayOf m)) 0 + 1)
              else acc)
            acc).getD i 0
          = acc.getD i 0
            + (msgs.filter (fun m =>
                decide (civilYear (dayOf m) = year ∧ weekdayOf (dayOf m) = i))).length) := by
  induction msgs with
  | nil =>
      intro acc hacc
      exact ⟨hacc, by intro i hi; simp⟩
  | cons m rest ih =>
      intro acc hacc
      rw [List.foldl_cons]
      by_cases hy : civilYear (dayOf m) = year
      · rw [if_pos hy]
        have hw : weekdayOf (dayOf m) < 7 := weekdayOf_lt _
        have hacc2 :
            (acc.set (weekdayOf (dayOf m))
              (acc.getD (weekdayOf (dayOf m)) 0 + 1)).length = 7 := by
          rw [List.length_set]
          exact hacc
        obtain ⟨hlen, hcount⟩ := ih _ hacc2
        refine ⟨hlen, ?_⟩
        intro i hi
        rw [hcount i hi]
        by_cases hiw : i = weekdayOf (dayOf m)
        · rw [hiw]
          have hset :
              (acc.set (weekdayOf (dayOf m))
                  (acc.getD (weekdayOf (dayOf m)) 0 + 1)).getD (weekdayOf (dayOf m)) 0
                = acc.getD (weekdayOf (dayOf m)) 0 + 1 :=
            getD_set_self_nat acc _ _ (by rw [hacc]; exact hw)
          rw [hset, List.filter_cons]
          have hcond :
              decide (civilYear (dayOf m) = year
                ∧ weekdayOf (dayOf m) = weekdayOf (dayOf m)) = true := by
            simp [hy]
          rw [if_pos hcond]
          rw [List.length_cons]
          omega
        · have hset :
              (acc.set (weekdayOf (dayOf m))
                (acc.getD (weekdayOf (dayOf m)) 0 + 1)).getD i 0 = acc.getD i 0 :=
            getD_set_ne_nat acc _ i _ hiw
          rw [hset, List.filter_cons]
          have hcond :
              decide (civilYear (dayOf m) = year ∧ weekdayOf (dayOf m) = i) = false := by
            simp [hy]
            intro hcon
            exact absurd hcon.symm hiw
          rw [if_neg (by simp [hcond])]
      · rw [if_neg hy]
        obtain ⟨hlen, hcount⟩ := ih acc hacc
        refine ⟨hlen, ?_⟩
        intro i hi
        rw [hcount i hi, List.filter_cons]
        have hcond :
            decide (civilYear (dayOf m) = year ∧ weekdayOf (dayOf m) = i) = false := by
          simp [hy]
        rw [if_neg (by simp [hcond])]

theorem argmax_spec (counts : List Nat) :
    ∀ n : Nat, 1 ≤ n →
      (List.range n).foldl (argmaxStep counts) 0 < n ∧
      (∀ i, i < n →
        counts.getD i 0 ≤ counts.getD ((List.range n).foldl (argmaxStep counts) 0) 0) ∧
      (∀ j, j < (List.range n).foldl (argmaxStep counts) 0 →
        counts.getD j 0 < counts.getD ((List.range n).foldl (argmaxStep counts) 0) 0) := by
  intro n
  induction n with
  | zero =>
      intro h
      omega
  | succ n ihn =>
      intro _
      rw [List.range_succ, List.foldl_append, List.foldl_cons, List.foldl_nil]
      rcases Nat.eq_zero_or_pos n with hn | hn
      · subst hn
        rw [List.range_zero, List.foldl_nil]
        refine ⟨?_, ?_, ?_⟩
        · simp [argmaxStep]
        · intro i hi
          have hi0 : i = 0 := by omega
          subst hi0
          simp [argmaxStep]
        · intro j hj
          simp [argmaxStep] at hj
      · obtain ⟨ih1, ih2, ih3⟩ := ihn hn
        simp only [argmaxStep]
        by_cases hlt :
            counts.getD ((List.range n).foldl (argmaxStep counts) 0) 0 < counts.getD n 0
        · rw [if_pos hlt]
          refine ⟨by omega, ?_, ?_⟩
          · intro i hi
            rcases Nat.lt_or_ge i n with h2 | h2
            · exact le_trans (ih2 i h2) (le_of_lt hlt)
            · have hieq : i = n := by omega
              subst hieq
              exact le_refl _
          · intro j hj
            exact lt_of_le_of_lt (ih2 j hj) hlt
        · rw [if_neg hlt]
          refine ⟨by omega, ?_, ih3⟩
          intro i hi
          rcases Nat.lt_or_ge i n with h2 | h2
          · exact ih2 i h2
          · have hieq : i = n := by omega
            subst hieq
            omega

/-- C6: the weekday accumulator has exactly 7 slots, slot `i` holds the
number of requested-year messages whose local weekday is `i`, and the
reported most-active weekday is a valid slot whose count is maximal, with
every lower-indexed slot strictly smaller (lowest index wins ties). -/
theorem weekdayActivity_spec (year : Int) (msgs : List MessageData) :
    (weekdayCounts year msgs).length = 7 ∧
    (∀ i, i < 7 →
      (weekdayCounts year msgs).getD i 0
        = (msgs.filter (fun m =>
            decide (civilYear (dayOf m) = year ∧ weekdayOf (dayOf m) = i))).length) ∧
    mostActiveWeekday (weekdayCounts year msgs) < 7 ∧
    (∀ i, i < 7 →
      (weekdayCounts year msgs).getD i 0
        ≤ (weekdayCounts year msgs).getD (mostActiveWeekday (weekdayCounts year msgs)) 0) ∧
    (∀ j, j < mostActiveWeekday (weekdayCounts year msgs) →
      (weekdayCounts year msgs).getD j 0
        < (weekdayCounts year msgs).getD (mostActiveWeekday (weekdayCounts year msgs)) 0) := by
  obtain ⟨hlen, hcount⟩ :=
    weekdayCounts_go year msgs (List.replicate 7 0) (by simp)
  obtain ⟨h1, h2, h3⟩ := argmax_spec (weekdayCounts year msgs) 7 (by omega)
  refine ⟨hlen, ?_, h1, h2, h3⟩
  intro i hi
  have hrepl : (List.replicate 7 (0 : Nat)).getD i 0 = 0 := by
    interval_cases i <;> rfl
  have h := hcount i hi
  rw [hrepl] at h
  rw [show (weekdayCounts year msgs)
      = msgs.foldl
          (fun acc m =>
            if civilYear (dayOf m) = year then
              acc.set (weekdayOf (dayOf m)) (acc.getD (weekdayOf (dayOf m)) 0 + 1)
            else acc)
          (List.replicate 7 0) from rfl]
  rw [h]
  omega

/-- Message list for the C6 witness: one message on 2025-01-01, a
Wednesday (weekday 3). -/
def wdMsgs : List MessageData := [dayMsg 20089]

/-- C6 witness: slot 3 of the accumulator counts exactly the 2025 messages
falling on weekday 3. -/
theorem weekdayActivity_spec_witness :
    3 < 7 ∧
    (weekdayCounts 2025 wdMsgs).getD 3 0
      = (wdMsgs.filter (fun m =>
          decide (civilYear (dayOf m) = 2025 ∧ weekdayOf (dayOf m) = 3))).length :=
  ⟨by decide, (weekdayActivity_spec 2025 wdMsgs).2.1 3 (by decide)⟩

end OCWrapped
